import Mathlib

/-!
Verification of the sampling-and-aggregation core of the
`streamlit-clt-demo` repository (`src/app.py`).

The numerically meaningful code is lines 96-101 of `src/app.py`:

  total_days_to_simulate = num_samples * sample_size
  daily_revenue_data = np.random.exponential(scale=avg_daily_revenue,
                                             size=total_days_to_simulate)
  samples = daily_revenue_data.reshape(num_samples, sample_size)
  sample_means = np.mean(samples, axis=1)

We embed the reshape-and-average step (the CLT Aggregator) as pure
functions on lists over a field, the exponential Sampler as an
inverse-transform over an explicit entropy stream, and the Poisson demo
(described in the specification but not present under `src/`) as
definitions modelled from the specification's words.
-/

namespace CLTDemo

/-- Arithmetic mean of a list of field elements, as computed by `np.mean`
over one row: the sum divided by the length (so the empty list maps to
`0 / 0 = 0` in this field-valued model; the code never takes the mean of
an empty row). -/
def listMean {α : Type} [DivisionRing α] (xs : List α) : α :=
  xs.sum / (xs.length : α)

/-- Row-major reshape of `xs` into `n` rows of `k` entries each: row `i`
is the slice of `xs` covering indices `[i*k, (i+1)*k)`.  This is the
shape `daily_revenue_data.reshape(num_samples, sample_size)` produces at
`src/app.py` line 100 when the length matches. -/
def reshape {α : Type} (n k : ℕ) (xs : List α) : List (List α) :=
  match n with
  | 0 => []
  | n + 1 => xs.take k :: reshape n k (xs.drop k)

/-- `numpy.reshape(num_samples, sample_size)` on a one-dimensional array:
it raises `ValueError` (here: `none`) when the array's length is not
exactly `num_samples * sample_size`, and otherwise returns the row-major
rows.  Models `src/app.py` line 100. -/
def npReshape {α : Type} (n k : ℕ) (xs : List α) : Option (List (List α)) :=
  if xs.length = n * k then some (reshape n k xs) else none

/-- Lines 100-101 of `src/app.py`: reshape the raw sequence into
`num_samples` rows of `sample_size` entries and take the arithmetic mean
of each row (`np.mean(samples, axis=1)`).  `none` models the
`ValueError` of a shape mismatch. -/
def sample_means {α : Type} [DivisionRing α] (num_samples sample_size : ℕ)
    (xs : List α) : Option (List α) :=
  (npReshape num_samples sample_size xs).map (fun rows => rows.map listMean)

/-- Modelled from the spec: `np.random.exponential` (`src/app.py` line 97)
is a call into an external random library whose body is not part of this
repository.  Per the spec's Sampler contract, each exponential draw is a
non-negative real with population mean `scale`; we model a single draw by
the standard inverse-transform `-scale * log (1 - u)` applied to a
uniform entropy value `u ∈ [0, 1)`. -/
noncomputable def expDraw (scale u : ℝ) : ℝ := -scale * Real.log (1 - u)

/-- Modelled from the spec: the Sampler "rejects non-positive scale/rate
or non-positive `n`" (§4.1); on valid parameters it returns `n`
inverse-transform draws taken from the entropy stream.  The requested
length is a natural number, so "non-positive `n`" is `n = 0`. -/
noncomputable def npExponential (scale : ℝ) (n : ℕ) (entropy : ℕ → ℝ) :
    Option (List ℝ) :=
  if 0 < scale ∧ 0 < n then
    some ((List.range n).map (fun i => expDraw scale (entropy i)))
  else none

/-- Lines 96-101 of `src/app.py` as one run of the CLT demo: draw
`num_samples * sample_size` exponential values
(`total_days_to_simulate`), then reshape and average.  The
`avg_daily_revenue` control enters only as the `scale` argument of the
Sampler. -/
noncomputable def cltRun (scale : ℝ) (num_samples sample_size : ℕ)
    (entropy : ℕ → ℝ) : Option (List ℝ) :=
  (npExponential scale (num_samples * sample_size) entropy).bind
    (fun raw => sample_means num_samples sample_size raw)

/-- Modelled from the spec: the Poisson demo procedure (§4.3) is described
in the specification but its source file is not under `src/`.  Empirical
mean of the raw integer sample sequence: the arithmetic mean of all
entries. -/
def poissonEmpMean (xs : List ℕ) : ℚ :=
  (xs.map (fun x => (x : ℚ))).sum / (xs.length : ℚ)

/-- Modelled from the spec: empirical variance = population variance of
all entries, dividing by `n`, not `n - 1` (§4.3). -/
def poissonEmpVar (xs : List ℕ) : ℚ :=
  (xs.map (fun x => ((x : ℚ) - poissonEmpMean xs) ^ 2)).sum / (xs.length : ℚ)

/-- Modelled from the spec: theoretical Poisson probability mass
`pmf(k; rate) = e^(-rate) * rate^k / k!` (§4.3). -/
noncomputable def poissonPMF (rate : ℝ) (k : ℕ) : ℝ :=
  Real.exp (-rate) * rate ^ k / (Nat.factorial k : ℝ)

/-- Modelled from the spec: empirical relative frequency of the integer
value `k` in the raw sample: `count(k) / n` (§4.3). -/
def poissonEmpFreq (xs : List ℕ) (k : ℕ) : ℚ :=
  (xs.count k : ℚ) / (xs.length : ℚ)

/-- Largest entry of the integer sample (`max(sample)`); `0` on the empty
list, which the Poisson Aggregator rejects before using this. -/
def maxEntry (xs : List ℕ) : ℕ := xs.foldr max 0

/-- Modelled from the spec: the Poisson Aggregator (§4.3) rejects empty
input and otherwise returns the empirical mean, the empirical
(population) variance, and, for each integer `k` from `0` to
`max(sample)`, the pair of the theoretical probability mass and the
empirical relative frequency of `k`. -/
noncomputable def poissonAggregate (rate : ℝ) (xs : List ℕ) :
    Option (ℚ × ℚ × List (ℝ × ℚ)) :=
  if xs = [] then none
  else some (poissonEmpMean xs, poissonEmpVar xs,
    (List.range (maxEntry xs + 1)).map
      (fun k => (poissonPMF rate k, poissonEmpFreq xs k)))

/-- `reshape` always produces exactly `n` rows. -/
theorem reshape_length {α : Type} (n k : ℕ) (xs : List α) :
    (reshape n k xs).length = n := by
  induction n generalizing xs with
  | zero => rfl
  | succ n ih => simp [reshape, ih]

/-- Row `i` of `reshape n k xs` is the slice of `xs` starting at `i*k`
of (at most) `k` entries. -/
theorem reshape_get? {α : Type} (n k : ℕ) (xs : List α) (i : ℕ)
    (hi : i < n) :
    (reshape n k xs).get? i = some ((xs.drop (i * k)).take k) := by
  induction n generalizing xs i with
  | zero => omega
  | succ n ih =>
    cases i with
    | zero => simp [reshape]
    | succ i =>
      have hi' : i < n := by omega
      simp only [reshape, List.get?_cons_succ]
      rw [ih (xs.drop k) i hi', List.drop_drop, Nat.succ_mul, Nat.add_comm (i * k) k]

/-- When the length matches, every row of the reshape has length
exactly `k`. -/
theorem reshape_row_length {α : Type} (n k : ℕ) (xs : List α)
    (hlen : xs.length = n * k) :
    ∀ b ∈ reshape n k xs, b.length = k := by
  induction n generalizing xs with
  | zero => simp [reshape]
  | succ n ih =>
    intro b hb
    simp only [reshape, List.mem_cons] at hb
    rcases hb with hb | hb
    · subst hb
      have : k ≤ xs.length := by
        rw [hlen, Nat.succ_mul]; omega
      simp [List.length_take, Nat.min_eq_left this]
    · exact ih (xs.drop k) (by rw [List.length_drop, hlen, Nat.succ_mul]; omega) b hb

/-- The rows of the reshape carry exactly the entries of `xs`: the sum
of the row sums is the sum of `xs`. -/
theorem reshape_sum {α : Type} [AddCommMonoid α] (n k : ℕ) (xs : List α)
    (hlen : xs.length = n * k) :
    ((reshape n k xs).map List.sum).sum = xs.sum := by
  induction n generalizing xs with
  | zero =>
    have : xs = [] := by
      apply List.eq_nil_of_length_eq_zero
      omega
    simp [reshape, this]
  | succ n ih =>
    simp only [reshape, List.map_cons, List.sum_cons]
    rw [ih (xs.drop k) (by rw [List.length_drop, hlen, Nat.succ_mul]; omega)]
    rw [← List.sum_append, List.take_append_drop]

/-- Every element of a row of the reshape is an element of `xs`. -/
theorem reshape_mem {α : Type} (n k : ℕ) (xs : List α)
    (b : List α) (hb : b ∈ reshape n k xs) :
    ∀ x ∈ b, x ∈ xs := by
  induction n generalizing xs with
  | zero => simp [reshape] at hb
  | succ n ih =>
    simp only [reshape, List.mem_cons] at hb
    rcases hb with hb | hb
    · subst hb
      intro x hx
      exact List.mem_of_mem_take hx
    · intro x hx
      exact List.mem_of_mem_drop (ih (xs.drop k) hb x hx)

/-- When every row has length `k`, the sum of the row means is the sum of
the row sums divided by `k`. -/
theorem sum_map_listMean {α : Type} [Field α] (rows : List (List α)) (k : ℕ)
    (hrow : ∀ b ∈ rows, b.length = k) :
    (rows.map listMean).sum = (rows.map List.sum).sum / (k : α) := by
  induction rows with
  | nil => simp
  | cons b rows ih =>
    simp only [List.map_cons, List.sum_cons]
    rw [ih (fun b hb => hrow b (List.mem_cons_of_mem _ hb)),
      listMean, hrow b (List.mem_cons_self _ _), add_div]

/-- The mean of a non-empty list is at most any upper bound of its
entries. -/
theorem listMean_le_of_forall_le {α : Type} [LinearOrderedField α]
    (xs : List α) (hi : α) (hne : xs ≠ []) (h : ∀ x ∈ xs, x ≤ hi) :
    listMean xs ≤ hi := by
  have hlen : 0 < (xs.length : α) := by
    exact_mod_cast List.length_pos.mpr hne
  rw [listMean, div_le_iff hlen]
  calc xs.sum ≤ xs.length • hi := List.sum_le_card_nsmul xs hi h
    _ = hi * xs.length := by rw [nsmul_eq_mul]; ring

/-- The mean of a non-empty list is at least any lower bound of its
entries. -/
theorem le_listMean_of_forall_le {α : Type} [LinearOrderedField α]
    (xs : List α) (lo : α) (hne : xs ≠ []) (h : ∀ x ∈ xs, lo ≤ x) :
    lo ≤ listMean xs := by
  have hlen : 0 < (xs.length : α) := by
    exact_mod_cast List.length_pos.mpr hne
  rw [listMean, le_div_iff hlen]
  calc lo * xs.length = xs.length • lo := by rw [nsmul_eq_mul]; ring
    _ ≤ xs.sum := List.card_nsmul_le_sum xs lo h

/-- **C1.** For every `num_samples ≥ 1`, `sample_size ≥ 1` and raw
sequence of length `num_samples * sample_size`, the CLT Aggregator
(lines 100-101 of `src/app.py`) succeeds and returns a sequence of length
`num_samples` whose entry `i` is the arithmetic mean of the consecutive
non-overlapping block of the raw sequence covering indices
`[i*sample_size, (i+1)*sample_size)`. -/
theorem clt_aggregator_partitions (n k : ℕ) (xs : List ℚ)
    (hn : 1 ≤ n) (hk : 1 ≤ k) (hlen : xs.length = n * k) :
    ∃ ms : List ℚ, sample_means n k xs = some ms ∧
      ms.length = n ∧
      ∀ i < n, ms.get? i = some (listMean ((xs.drop (i * k)).take k)) := by
  refine ⟨(reshape n k xs).map listMean, ?_, ?_, ?_⟩
  · simp [sample_means, npReshape, hlen]
  · simp [reshape_length]
  · intro i hi
    rw [List.get?_map, reshape_get? n k xs i hi, Option.map_some']

/-- Witness for C1: `num_samples = 2`, `sample_size = 2`,
raw = `[1, 2, 3, 4]`. -/
theorem clt_aggregator_partitions_witness :
    1 ≤ 2 ∧ ([(1:ℚ), 2, 3, 4].length = 2 * 2) ∧
    ∃ ms : List ℚ, sample_means 2 2 [(1:ℚ), 2, 3, 4] = some ms ∧
      ms.length = 2 ∧
      ∀ i < 2, ms.get? i =
        some (listMean (([(1:ℚ), 2, 3, 4].drop (i * 2)).take 2)) :=
  ⟨by decide, by decide,
    clt_aggregator_partitions 2 2 [(1:ℚ), 2, 3, 4]
      (by decide) (by decide) (by decide)⟩

/-- **C2.** Aggregation preserves the overall mean: over exact rational
arithmetic, the mean of the sample-mean sequence equals the mean of the
raw sequence. -/
theorem clt_aggregation_preserves_mean (n k : ℕ) (xs : List ℚ)
    (hn : 1 ≤ n) (hk : 1 ≤ k) (hlen : xs.length = n * k) :
    ∃ ms : List ℚ, sample_means n k xs = some ms ∧
      listMean ms = listMean xs := by
  refine ⟨(reshape n k xs).map listMean, by simp [sample_means, npReshape, hlen], ?_⟩
  rw [listMean, sum_map_listMean _ k (reshape_row_length n k xs hlen),
    reshape_sum n k xs hlen, List.length_map, reshape_length,
    listMean, hlen]
  push_cast
  rw [div_div, mul_comm (k : ℚ) (n : ℚ)]

/-- Witness for C2: `num_samples = 2`, `sample_size = 2`,
raw = `[1, 2, 3, 4]`. -/
theorem clt_aggregation_preserves_mean_witness :
    1 ≤ 2 ∧ ([(1:ℚ), 2, 3, 4].length = 2 * 2) ∧
    ∃ ms : List ℚ, sample_means 2 2 [(1:ℚ), 2, 3, 4] = some ms ∧
      listMean ms = listMean [(1:ℚ), 2, 3, 4] :=
  ⟨by decide, by decide,
    clt_aggregation_preserves_mean 2 2 [(1:ℚ), 2, 3, 4]
      (by decide) (by decide) (by decide)⟩

/-- **C4.** The CLT Aggregator rejects (returns no sample-mean output for)
any raw sequence whose length is not exactly
`num_samples * sample_size` — `numpy.reshape` raises `ValueError` before
`np.mean` runs. -/
theorem clt_aggregator_rejects_mismatch (n k : ℕ) (xs : List ℚ)
    (hlen : xs.length ≠ n * k) :
    sample_means n k xs = none := by
  simp [sample_means, npReshape, hlen]

/-- Witness for C4: a raw sequence of length 1 cannot be reshaped into
1 block of 2. -/
theorem clt_aggregator_rejects_mismatch_witness :
    ([(5:ℚ)].length ≠ 1 * 2) ∧ sample_means 1 2 [(5:ℚ)] = none :=
  ⟨by decide, clt_aggregator_rejects_mismatch 1 2 [(5:ℚ)] (by decide)⟩

/-- **C3.** For every `scale > 0` and `n ≥ 1`, the Sampler's exponential
output is a sequence of length exactly `n` all of whose values are
`≥ 0` — for any entropy stream of uniform values in `[0, 1)`. -/
theorem exp_sampler_length_nonneg (scale : ℝ) (n : ℕ) (entropy : ℕ → ℝ)
    (hs : 0 < scale) (hn : 1 ≤ n)
    (hu : ∀ i, 0 ≤ entropy i ∧ entropy i < 1) :
    ∃ ys, npExponential scale n entropy = some ys ∧
      ys.length = n ∧ ∀ y ∈ ys, 0 ≤ y := by
  refine ⟨(List.range n).map (fun i => expDraw scale (entropy i)), ?_, ?_, ?_⟩
  · rw [npExponential, if_pos ⟨hs, by omega⟩]
  · simp
  · intro y hy
    simp only [List.mem_map] at hy
    obtain ⟨i, -, rfl⟩ := hy
    rw [expDraw, neg_mul_comm]
    refine mul_nonneg hs.le (neg_nonneg.mpr ?_)
    exact Real.log_nonpos (by linarith [(hu i).2]) (by linarith [(hu i).1])

/-- Witness for C3: `scale = 1`, `n = 1`, constant-zero entropy. -/
theorem exp_sampler_length_nonneg_witness :
    (0:ℝ) < 1 ∧ (∀ i : ℕ, 0 ≤ (0:ℝ) ∧ (0:ℝ) < 1) ∧
    ∃ ys, npExponential 1 1 (fun _ => (0:ℝ)) = some ys ∧
      ys.length = 1 ∧ ∀ y ∈ ys, 0 ≤ y :=
  ⟨by norm_num, fun i => by norm_num,
    exp_sampler_length_nonneg 1 1 (fun _ => (0:ℝ))
      (by norm_num) (by norm_num) (fun i => by norm_num)⟩

/-- **C6.** The Sampler fails if and only if the scale parameter is
non-positive or the requested length is non-positive (here `n = 0`, the
length being a natural number). -/
theorem exp_sampler_error_iff (scale : ℝ) (n : ℕ) (entropy : ℕ → ℝ) :
    npExponential scale n entropy = none ↔ (scale ≤ 0 ∨ n = 0) := by
  have hiff : (npExponential scale n entropy = none) ↔
      ¬(0 < scale ∧ 0 < n) := by
    rw [npExponential]
    split
    next h => simp [h]
    next h => simp [h]
  rw [hiff, not_and_or, not_lt, not_lt, Nat.le_zero]

/-- **C7.** The shape-mismatch branch of the Aggregator is unreachable in
the CLT run: whatever the three parameters, when the Sampler (invoked
with length `num_samples * sample_size`, line 96) succeeds, the
reshape-and-average step on that same sequence succeeds. -/
theorem clt_shape_mismatch_unreachable (scale : ℝ) (n k : ℕ) (e : ℕ → ℝ)
    (raw : List ℝ) (hraw : npExponential scale (n * k) e = some raw) :
    (sample_means n k raw).isSome = true := by
  have hlen : raw.length = n * k := by
    by_cases h : 0 < scale ∧ 0 < n * k
    · rw [npExponential, if_pos h] at hraw
      cases hraw
      simp
    · rw [npExponential, if_neg h] at hraw
      cases hraw
  simp [sample_means, npReshape, hlen]

/-- Witness for C7: `scale = 1`, `num_samples = sample_size = 1`,
constant-zero entropy, whose single draw is `0`. -/
theorem clt_shape_mismatch_unreachable_witness :
    npExponential 1 (1 * 1) (fun _ => (0:ℝ)) = some [0] ∧
    (sample_means 1 1 [(0:ℝ)]).isSome = true := by
  have h : npExponential 1 (1 * 1) (fun _ => (0:ℝ)) = some [0] := by
    rw [npExponential, if_pos (by norm_num)]
    norm_num [List.range_succ, expDraw, Real.log_one]
  exact ⟨h, clt_shape_mismatch_unreachable 1 1 1 (fun _ => (0:ℝ)) [0] h⟩

/-- **C8.** With `scale = 150`, `sample_size = 30`, `num_samples = 2000`,
one run of the CLT demo simulates `2000 * 30 = 60000` days, the raw
sequence has length exactly `60000`, and the sample-mean sequence has
length exactly `2000` — for every entropy stream. -/
theorem clt_concrete_scenario (e : ℕ → ℝ) :
    ∃ raw ms : List ℝ,
      npExponential 150 (2000 * 30) e = some raw ∧
      raw.length = 60000 ∧
      sample_means 2000 30 raw = some ms ∧
      ms.length = 2000 := by
  refine ⟨(List.range (2000 * 30)).map (fun i => expDraw 150 (e i)),
    (reshape 2000 30 ((List.range (2000 * 30)).map
      (fun i => expDraw 150 (e i)))).map listMean, ?_, ?_, ?_, ?_⟩
  · rw [npExponential, if_pos (by norm_num)]
  · simp
  · have hlen : ((List.range (2000 * 30)).map
        (fun i => expDraw 150 (e i))).length = 2000 * 30 := by simp
    simp [sample_means, npReshape, hlen]
  · simp [reshape_length]

/-- **C9.** Every entry of the sample-mean sequence lies between the
minimum and the maximum of the raw sequence; in particular, when the
minimum is `≥ 0` (as for exponential draws), every sample mean is
`≥ 0`. -/
theorem clt_sample_means_bounded (n k : ℕ) (xs : List ℚ) (lo hi : ℚ)
    (hn : 1 ≤ n) (hk : 1 ≤ k) (hlen : xs.length = n * k)
    (hlo : xs.minimum = (lo : WithTop ℚ)) (hhi : xs.maximum = (hi : WithBot ℚ)) :
    ∃ ms, sample_means n k xs = some ms ∧
      ∀ m ∈ ms, lo ≤ m ∧ m ≤ hi ∧ (0 ≤ lo → 0 ≤ m) := by
  refine ⟨(reshape n k xs).map listMean,
    by simp [sample_means, npReshape, hlen], ?_⟩
  intro m hm
  simp only [List.mem_map] at hm
  obtain ⟨b, hb, rfl⟩ := hm
  have hbk : b.length = k := reshape_row_length n k xs hlen b hb
  have hbne : b ≠ [] := by
    intro hnil
    rw [hnil] at hbk
    simp at hbk
    omega
  have hlo' : lo ≤ listMean b :=
    le_listMean_of_forall_le b lo hbne
      (fun x hx => List.minimum_le_of_mem (reshape_mem n k xs b hb x hx) hlo)
  have hhi' : listMean b ≤ hi :=
    listMean_le_of_forall_le b hi hbne
      (fun x hx => List.le_maximum_of_mem (reshape_mem n k xs b hb x hx) hhi)
  exact ⟨hlo', hhi', fun h0 => le_trans h0 hlo'⟩

/-- Witness for C9: raw = `[1, 3]`, one block of two entries, minimum 1,
maximum 3. -/
theorem clt_sample_means_bounded_witness :
    ([(1:ℚ), 3].length = 1 * 2) ∧
    ([(1:ℚ), 3].minimum = ((1:ℚ) : WithTop ℚ)) ∧
    ([(1:ℚ), 3].maximum = ((3:ℚ) : WithBot ℚ)) ∧
    ∃ ms, sample_means 1 2 [(1:ℚ), 3] = some ms ∧
      ∀ m ∈ ms, 1 ≤ m ∧ m ≤ 3 ∧ (0 ≤ (1:ℚ) → 0 ≤ m) := by
  have hmin : [(1:ℚ), 3].minimum = ((1:ℚ) : WithTop ℚ) := by decide
  have hmax : [(1:ℚ), 3].maximum = ((3:ℚ) : WithBot ℚ) := by decide
  exact ⟨by decide, hmin, hmax,
    clt_sample_means_bounded 1 2 [(1:ℚ), 3] 1 3
      (by decide) (by decide) (by decide) hmin hmax⟩

/-- **C10.** The aggregation step is deterministic in its inputs: when two
runs (with possibly different `avg_daily_revenue` scales and entropy) are
given identical raw sequences and identical `num_samples` and
`sample_size`, they produce identical sample-mean sequences — the scale
parameter influences the output only through the sampled raw data. -/
theorem clt_aggregation_deterministic (n k : ℕ) (s s' : ℝ) (e e' : ℕ → ℝ)
    (h : npExponential s (n * k) e = npExponential s' (n * k) e') :
    cltRun s n k e = cltRun s' n k e' := by
  rw [cltRun, cltRun, h]

/-- Witness for C10: two runs with different scales (`1` and `2`) but the
same constant-zero entropy draw the same raw sequence `[0]`, hence agree. -/
theorem clt_aggregation_deterministic_witness :
    npExponential 1 (1 * 1) (fun _ => (0:ℝ)) =
      npExponential 2 (1 * 1) (fun _ => (0:ℝ)) ∧
    cltRun 1 1 1 (fun _ => (0:ℝ)) = cltRun 2 1 1 (fun _ => (0:ℝ)) := by
  have h : npExponential 1 (1 * 1) (fun _ => (0:ℝ)) =
      npExponential 2 (1 * 1) (fun _ => (0:ℝ)) := by
    rw [npExponential, if_pos (by norm_num), npExponential, if_pos (by norm_num)]
    norm_num [List.range_succ, expDraw, Real.log_one]
  exact ⟨h, clt_aggregation_deterministic 1 1 1 2 (fun _ => (0:ℝ)) (fun _ => (0:ℝ)) h⟩

/-- **C5.** The second, independent Poisson demo procedure's Aggregator,
given a non-empty raw integer sample of length `n`, returns the empirical
mean as the arithmetic mean of all entries, the empirical variance as the
population variance (dividing by `n`, not `n - 1`), and for each integer
`k` from `0` to `max(sample)` the theoretical probability mass
`e^(-rate) * rate^k / k!` paired with the empirical relative frequency
`count(k) / n`. -/
theorem poisson_aggregator_spec (rate : ℝ) (xs : List ℕ)
    (hne : xs ≠ []) :
    ∃ m v tbl, poissonAggregate rate xs = some (m, v, tbl) ∧
      m = (xs.map (fun x => (x : ℚ))).sum / (xs.length : ℚ) ∧
      v = (xs.map (fun x => ((x : ℚ) - m) ^ 2)).sum / (xs.length : ℚ) ∧
      tbl.length = maxEntry xs + 1 ∧
      ∀ j ≤ maxEntry xs, tbl.get? j =
        some (Real.exp (-rate) * rate ^ j / (Nat.factorial j : ℝ),
          (xs.count j : ℚ) / (xs.length : ℚ)) := by
  refine ⟨poissonEmpMean xs, poissonEmpVar xs, _,
    by rw [poissonAggregate, if_neg hne], rfl, rfl, by simp, ?_⟩
  intro j hj
  rw [List.get?_map, List.get?_range (by omega), Option.map_some']
  rfl

/-- Witness for C5: the two-entry sample `[1, 0]` with `rate = 1`. -/
theorem poisson_aggregator_spec_witness :
    ([1, 0] ≠ ([] : List ℕ)) ∧
    ∃ m v tbl, poissonAggregate 1 [1, 0] = some (m, v, tbl) ∧
      m = (([1, 0] : List ℕ).map (fun x => (x : ℚ))).sum / (([1, 0] : List ℕ).length : ℚ) ∧
      v = (([1, 0] : List ℕ).map (fun x => ((x : ℚ) - m) ^ 2)).sum / (([1, 0] : List ℕ).length : ℚ) ∧
      tbl.length = maxEntry [1, 0] + 1 ∧
      ∀ j ≤ maxEntry [1, 0], tbl.get? j =
        some (Real.exp (-1) * 1 ^ j / (Nat.factorial j : ℝ),
          (([1, 0] : List ℕ).count j : ℚ) / (([1, 0] : List ℕ).length : ℚ)) :=
  ⟨by decide, poisson_aggregator_spec 1 [1, 0] (by decide)⟩

end CLTDemo
